import Mathlib

/-!
Verification of the perch preview pipeline core.

This development shallowly embeds the Go source of the perch repository:
- the diff line classifier (`GetDiffLines` in internal/git/status.go),
- the bubbletea update function and preview pipeline of the current UI
  model (the `Update`, `updatePreviewKeepScroll`, `scrollToFirstDiff`,
  `loadPreviewAsync` functions and friends).

Strings that the Go code scans character by character (diff lines) are
modelled as `List Char`; other strings stay `String`.  Go `map` values are
modelled as association lists with replace-on-insert semantics, matching
Go map lookup/store behaviour.  External collaborators (git subprocess
output, the filesystem, the syntax highlighter, the bubbletea viewport)
are modelled at their interfaces, as the spec prescribes.
-/

namespace Perch

/-- A scanned text line, as a list of characters (Go ranges over bytes of
ASCII diff output; all inputs of interest are ASCII). -/
abbrev Line := List Char

/-- `pref p s` models Go `strings.HasPrefix(s, p)`. -/
def pref : List Char → List Char → Bool
  | [], _ => true
  | _ :: _, [] => false
  | a :: as, b :: bs => a == b && pref as bs

/-- `isInfixList p s` models Go `strings.Contains(s, p)`. -/
def isInfixList (p : List Char) : List Char → Bool
  | [] => p.isEmpty
  | a :: as => pref p (a :: as) || isInfixList p as

/-- Models Go `strings.Split(s, sep)` for a one-character separator. -/
def splitOnChar (c : Char) : List Char → List (List Char)
  | [] => [[]]
  | a :: as =>
    match splitOnChar c as with
    | [] => [[]]
    | h :: t => if a == c then [] :: h :: t else (a :: h) :: t

/-- Association-list lookup, modelling Go map indexing `m[k]`. -/
def amFind {α β : Type} [DecidableEq α] (m : List (α × β)) (k : α) : Option β :=
  match m with
  | [] => none
  | (a, b) :: rest => if a = k then some b else amFind rest k

/-- Association-list store, modelling Go map assignment `m[k] = v`
(replaces an existing binding, else appends). -/
def amInsert {α β : Type} [DecidableEq α] (m : List (α × β)) (k : α) (v : β) :
    List (α × β) :=
  match m with
  | [] => [(k, v)]
  | (a, b) :: rest => if a = k then (k, v) :: rest else (a, b) :: amInsert rest k v

/-- Digit run to number, as `fmt.Sscanf` with verb `%d` accumulates it. -/
def digitsToNat (ds : List Char) : Nat :=
  ds.foldl (fun acc c => acc * 10 + (c.toNat - '0'.toNat)) 0

def isSpaceC (c : Char) : Bool :=
  c == ' ' || c == '\t' || c == '\n' || c == '\r'

/-- Models `fmt.Sscanf(s, "%d", &x)` where `x` held `cur`: skip leading
whitespace, read an optional sign and a digit run; on no digits the
variable keeps its old value (scan error, Go leaves `x` unassigned). -/
def sscanfInt (s : List Char) (cur : Int) : Int :=
  let s1 := s.dropWhile isSpaceC
  let sgn : Int := if s1.headD ' ' == '-' then -1 else 1
  let s2 := if s1.headD ' ' == '-' || s1.headD ' ' == '+' then s1.tail else s1
  let ds := s2.takeWhile Char.isDigit
  if ds.isEmpty then cur else sgn * (digitsToNat ds : Int)

/-- Scanner state of `GetDiffLines`: the running new-file line counter and
the accumulated line→status map. -/
structure DiffState where
  lineNum : Int
  result : List (Int × String)
deriving DecidableEq, Repr

/-- One iteration of the scan loop of `GetDiffLines`
(src/internal/git/status.go, lines 120–145). -/
def diffStep (st : DiffState) (l : Line) : DiffState :=
  if pref ['@', '@'] l then
    let parts := splitOnChar '+' l
    if parts.length ≥ 2 then
      let numPart := (splitOnChar ',' (parts.getD 1 [])).getD 0 []
      let numPart2 := (splitOnChar ' ' numPart).getD 0 []
      { st with lineNum := sscanfInt numPart2 st.lineNum - 1 }
    else st
  else if pref ['+'] l && !pref ['+', '+', '+'] l then
    { lineNum := st.lineNum + 1,
      result := amInsert st.result (st.lineNum + 1) "added" }
  else if pref ['-'] l && !pref ['-', '-', '-'] l then
    { st with result := amInsert st.result st.lineNum "deleted" }
  else if !pref ['\\'] l && st.lineNum > 0 then
    { st with lineNum := st.lineNum + 1 }
  else st

/-- `GetDiffLines` (src/internal/git/status.go, lines 107–148): classify the
lines of a `git diff -U0` output (already split into text lines, as
`bufio.Scanner` yields them) into a new-file-line-number → status map. -/
def getDiffLines (lines : List Line) : List (Int × String) :=
  (lines.foldl diffStep { lineNum := 0, result := [] }).result

/-- Modelled from the spec: the add/delete counts for a diff are produced by
the external `git diff --numstat` call (`GetDiffStats` in
src/internal/git/status.go only parses that subprocess output); spec §4.1
states the counts equal the number of `+` content lines, which we define
here by counting them. -/
def diffAddedCount (lines : List Line) : Nat :=
  (lines.filter (fun l => pref ['+'] l && !pref ['+', '+', '+'] l)).length

/-- Modelled from the spec: deletion counterpart of `diffAddedCount`,
counting the `-` content lines of the diff per spec §4.1. -/
def diffDeletedCount (lines : List Line) : Nat :=
  (lines.filter (fun l => pref ['-'] l && !pref ['-', '-', '-'] l)).length

/-! ## String utilities used by the UI model

These model the Go standard-library calls made by the UI source
(`strings.Contains`, `strings.ToLower`, `filepath.Ext`, `filepath.Base`). -/

/-- Models Go `strings.Contains(s, sub)`. -/
def containsStr (s sub : String) : Bool :=
  isInfixList sub.toList s.toList

/-- Models Go `strings.ToLower` (ASCII is all that reaches it here). -/
def strToLower (s : String) : String :=
  String.mk (s.toList.map Char.toLower)

/-- Scan a path from its end: stop at a path separator, return from the last
dot (inclusive).  Helper for `filepathExt`. -/
def extRev : List Char → List Char → List Char
  | [], _ => []
  | c :: rest, acc =>
    if c == '/' then []
    else if c == '.' then '.' :: acc
    else extRev rest (c :: acc)

/-- Models Go `filepath.Ext`: the suffix beginning at the final dot in the
final path element, empty if there is no dot. -/
def filepathExt (p : String) : String :=
  String.mk (extRev p.toList.reverse [])

/-- Models Go `filepath.Base`: the last element of the path, after stripping
trailing separators; `.` for the empty path, `/` if all separators. -/
def filepathBase (p : String) : String :=
  if p = "" then "."
  else
    let cs := p.toList.reverse.dropWhile (fun c => c == '/')
    if cs.isEmpty then "/"
    else String.mk (cs.takeWhile (fun c => c != '/')).reverse

/-- Models Go `filepath.Join(dir, path)` at the fidelity the claims need:
the result is only ever passed to the external filesystem read, so the
cleaning behaviour of the real call is irrelevant here. -/
def joinPath (dir p : String) : String :=
  dir ++ "/" ++ p

/-! ## UI data model (src/unnamed/part_006) -/

/-- `FileStatus` (src/internal/git/status.go, lines 21–31). -/
structure FileStatus where
  status : String := ""
  gitCode : String := ""
  path : String := ""
  fullPath : String := ""
  gitRoot : String := ""
  commit : String := ""
  timeAgo : String := ""
  isFile : Bool := true
  modTime : Int := 0
deriving DecidableEq, Repr

/-- `DiffStats` (src/internal/git/status.go, lines 53–56). -/
structure DiffStats where
  added : Int := 0
  deleted : Int := 0
deriving DecidableEq, Repr

/-- Modelled from the spec: `VisualLine` belongs to the ANSI text engine
(spec §2, §4.2) whose defining source file is not present under src/ (only
its callers are).  One wrapped segment of a logical preview line. -/
structure VisualLine where
  logicalIndex : Int := 0
  segmentIndex : Int := 0
  gutter : String := ""
  text : String := ""
  diffStatus : String := ""
deriving DecidableEq, Repr

/-- `PreviewContent` (src/unnamed/part_006, lines 1014–1022). -/
structure PreviewContent where
  valid : Bool := false
  message : String := ""
  rawLines : List String := []
  highlightedLines : List String := []
  diffLines : List (Int × String) := []
  diffStats : DiffStats := {}
  wrappedByWidth : List (Int × List VisualLine) := []
deriving DecidableEq, Repr

/-- Modelled from the spec: gutter glyph per diff status (spec §4.2:
"a status-specific gutter glyph (`+`, `-`, or a neutral marker)"). -/
def gutterFor (status : String) : String :=
  if status = "added" then "+ " else if status = "deleted" then "- " else "· "

/-- Worker for `chunkList`, structurally recursive on a fuel that starts at
the list length (each step consumes at least one character, so the fuel
never runs out on the inputs `chunkList` passes). -/
def chunkGo (w : Nat) : Nat → List Char → List (List Char)
  | _, [] => []
  | 0, l => [l]
  | fuel + 1, l =>
    let seg := l.take (max w 1)
    let rest := l.drop (max w 1)
    if rest.isEmpty then [seg] else seg :: chunkGo w fuel rest

/-- Chunk a character list into segments of at most `w` characters (at least
one segment, width floor clamped to 1 per spec §4.2's failure policy). -/
def chunkList (w : Nat) (l : List Char) : List (List Char) :=
  if l.isEmpty then [[]] else chunkGo w l.length l

/-- Build the `VisualLine`s of one logical line from its segments: segment 0
carries the status gutter glyph, continuations a blank gutter. -/
def mkSegs (idx : Nat) (status : String) : Nat → List (List Char) → List VisualLine
  | _, [] => []
  | j, seg :: rest =>
    { logicalIndex := (idx : Int), segmentIndex := (j : Int),
      gutter := if j = 0 then gutterFor status else "  ",
      text := String.mk seg, diffStatus := status } :: mkSegs idx status (j + 1) rest

/-- Worker for `wrapAllLines`: wrap each logical line in order, looking up
its diff status at its 1-based line number. -/
def wrapAllGo (diff : List (Int × String)) (width : Nat) :
    Nat → List String → List VisualLine
  | _, [] => []
  | i, hl :: rest =>
    let status := (amFind diff ((i : Int) + 1)).getD ""
    mkSegs i status 0 (chunkList width hl.toList) ++ wrapAllGo diff width (i + 1) rest

/-- Modelled from the spec: `wrapAllLines` (spec §4.2) lives in the ANSI text
engine source file that is not under src/.  Per the spec, each logical line
expands in order into one or more `VisualLine`s carrying the line's diff
status; we model the width-aware slicing as plain chunking of the line's
characters (the spec's ANSI-skipping width measurement degenerates to rune
count on ANSI-free text, and no claim depends on the slicing boundaries).
The raw-lines argument feeds only the hanging-indent padding, which no claim
observes; it is kept for signature parity. -/
def wrapAllLines (highlighted : List String) (_raw : List String)
    (diff : List (Int × String)) (width : Int) : List VisualLine :=
  wrapAllGo diff width.toNat 0 highlighted

/-- `PreviewContent.WrappedLinesForWidth` (src/unnamed/part_006, lines
1030–1040): serve wrapped lines from the per-width cache, computing and
storing them on a miss.  Returns the lines and the (possibly updated)
content, making the Go in-place cache write explicit. -/
def PreviewContent.wrappedLinesForWidth (pc : PreviewContent) (width : Int) :
    List VisualLine × PreviewContent :=
  match amFind pc.wrappedByWidth width with
  | some lines => (lines, pc)
  | none =>
    let lines := wrapAllLines pc.highlightedLines pc.rawLines pc.diffLines width
    (lines, { pc with wrappedByWidth := amInsert pc.wrappedByWidth width lines })

/-- The external bubbletea viewport, modelled at the interface the core
uses: a content string and a scroll offset in visual lines. -/
structure Viewport where
  width : Int := 80
  height : Int := 10
  yOffset : Int := 0
  content : String := ""
deriving DecidableEq, Repr

def Viewport.setContent (v : Viewport) (s : String) : Viewport :=
  { v with content := s }

def Viewport.gotoTop (v : Viewport) : Viewport :=
  { v with yOffset := 0 }

def Viewport.gotoBottom (v : Viewport) : Viewport :=
  { v with yOffset := max 0 (((v.content.splitOn "\n").length : Int) - v.height) }

def Viewport.setYOffset (v : Viewport) (n : Int) : Viewport :=
  { v with yOffset := n }

def Viewport.lineDown (v : Viewport) (n : Int) : Viewport :=
  { v with yOffset := v.yOffset + n }

def Viewport.lineUp (v : Viewport) (n : Int) : Viewport :=
  { v with yOffset := max 0 (v.yOffset - n) }

def Viewport.halfViewDown (v : Viewport) : Viewport :=
  { v with yOffset := v.yOffset + v.height / 2 }

def Viewport.halfViewUp (v : Viewport) : Viewport :=
  { v with yOffset := max 0 (v.yOffset - v.height / 2) }

/-- The UI `Model` (src/unnamed/part_006, lines 1043–1062). -/
structure Model where
  files : List FileStatus := []
  selected : Int := 0
  lastSelectedFile : Int := 0
  listScroll : Int := 0
  dir : String := ""
  gitRoot : String := ""
  width : Int := 0
  height : Int := 0
  listHeight : Int := 8
  previewReady : Bool := false
  preview : PreviewContent := {}
  viewport : Viewport := {}
  sparkleOn : Bool := false
  loading : Bool := true
  loadingFrame : Int := 0
  previewPending : Int := -1
  previewCache : List (String × PreviewContent) := []
deriving DecidableEq, Repr

/-- The IO boundary taken at dispatch time: results of the git subprocess
calls, the filesystem read, and the external syntax highlighter, keyed by
the arguments the source passes them. -/
structure Env where
  diffLines : String → String → List (Int × String)
  diffStats : String → String → DiffStats
  readFile : String → Option String
  highlight : String → String → List String
  highlightMd : List String → String → List String

/-- An environment in which every file read fails and every git call
returns nothing; used to instantiate theorems on concrete inputs. -/
def envNil : Env :=
  { diffLines := fun _ _ => [], diffStats := fun _ _ => {},
    readFile := fun _ => none, highlight := fun _ _ => [],
    highlightMd := fun _ _ => [] }

/-- `isUnsupportedFile` (src/unnamed/part_006, lines 1696–1717). -/
def unsupportedExts : List String :=
  [".xcuserstate", ".xcworkspace", ".pbxproj",
   ".png", ".jpg", ".jpeg", ".gif", ".ico", ".webp",
   ".exe", ".dll", ".so", ".dylib",
   ".zip", ".tar", ".gz", ".rar",
   ".mp3", ".mp4", ".wav", ".mov",
   ".ttf", ".otf", ".woff", ".woff2",
   ".pdf"]

def isUnsupportedFile (path : String) : Bool :=
  let ext := strToLower (filepathExt path)
  if ext = "" then true
  else if unsupportedExts.contains ext then true
  else if containsStr path ".xcworkspace" || containsStr path ".xcodeproj" then true
  else false

/-- `isMarkdownFile` (src/unnamed/part_006, lines 1619–1626). -/
def isMarkdownFile (path : String) : Bool :=
  let ext := strToLower (filepathExt path)
  ext = ".md" || ext = ".markdown" || ext = ".mdown" || ext = ".mdx"

/-! ## Messages and commands

The bubbletea messages the `Update` switch handles, and the follow-up
commands it returns; commands are the effects the spec's design note calls
for (timers and background loads become tagged values carrying the
snapshot taken at dispatch time, exactly what the Go closures capture). -/

inductive Msg where
  | key (k : String)
  | mouseWheel (isUp : Bool) (y : Int)
  | windowSize (w h : Int)
  | filesLoaded (files : List FileStatus)
  | refresh
  | tick
  | previewRequest (selectedIndex : Int)
  | previewLoaded (selectedIndex : Int) (preview : PreviewContent)
deriving DecidableEq, Repr

inductive CmdE where
  | quit
  | loadFiles
  | tickTimer
  | debouncePreview (selectedIndex : Int)
  | loadPreview (selectedIndex : Int) (file : FileStatus) (dir gitRoot : String)
deriving DecidableEq, Repr

/-- The preview carried by a `previewLoaded` message (default elsewhere). -/
def Msg.loadedPreview : Msg → PreviewContent
  | .previewLoaded _ pc => pc
  | _ => {}

/-- `renderPreviewContent` (src/unnamed/part_006, lines 1495–1579), at the
fidelity the claims need: the branch structure (invalid → empty, message →
message text, no lines → empty, else the wrapped lines) is kept, and the
in-place wrap-cache write of `WrappedLinesForWidth` is made explicit in the
returned content; the lipgloss styling, centering and background injection
of the real code use the external ANSI engine and style tables and are not
modelled, since no claim inspects the rendered string. -/
def renderPreview (pc : PreviewContent) (width : Int) : String × PreviewContent :=
  if pc.valid = false then ("", pc)
  else if pc.message ≠ "" then (pc.message, pc)
  else if pc.highlightedLines = [] then ("", pc)
  else
    let r := pc.wrappedLinesForWidth width
    (String.intercalate "\n" (r.1.map (fun vl => vl.text)), r.2)

/-- `m.viewport.SetContent(m.renderPreviewContent())`: render the current
preview and store the result in the viewport, threading the wrap-cache
update through the model. -/
def setPreviewContent (m : Model) : Model :=
  let r := renderPreview m.preview m.width
  { m with preview := r.2, viewport := m.viewport.setContent r.1 }

/-- First wrapped line carrying a diff status (the search loop of
`scrollToFirstDiff`). -/
def findDiffIdx : List VisualLine → Option Nat
  | [] => none
  | vl :: rest =>
    if vl.diffStatus = "added" ∨ vl.diffStatus = "deleted" then some 0
    else (findDiffIdx rest).map (fun i => i + 1)

/-- `scrollToFirstDiff` (src/unnamed/part_006, lines 1582–1615). -/
def scrollToFirstDiff (m : Model) : Model :=
  let r := m.preview.wrappedLinesForWidth m.width
  let m1 := { m with preview := r.2 }
  match findDiffIdx r.1 with
  | none => { m1 with viewport := m1.viewport.gotoTop }
  | some i =>
    let target : Int := max ((i : Int) - 3) 0
    if target ≤ 2 then { m1 with viewport := m1.viewport.gotoTop }
    else { m1 with viewport := m1.viewport.setYOffset target }

/-- Tail shared by every rebuild branch of `updatePreviewKeepScroll`:
install the preview, render it into the viewport, jump to the top unless
`keepScroll`, and record the loaded index. -/
def applyPreview (m : Model) (pc : PreviewContent) (keepScroll : Bool) : Model :=
  let m1 := setPreviewContent { m with preview := pc }
  let m2 := if keepScroll then m1 else { m1 with viewport := m1.viewport.gotoTop }
  { m2 with lastSelectedFile := m2.selected }

/-- The path of the currently selected entry, empty when the selection is
out of range (the `selectedPath` computation of the `filesLoadedMsg` case,
src/unnamed/part_006, lines 1205–1208). -/
def oldSelPath (m : Model) : String :=
  if 0 ≤ m.selected ∧ m.selected < (m.files.length : Int) then
    (m.files.getD m.selected.toNat {}).path
  else ""

/-- First index in the list whose entry has the given path (the search loop
of the `filesLoadedMsg` case). -/
def findIdxPath (p : String) : List FileStatus → Option Nat
  | [] => none
  | f :: fs => if f.path = p then some 0 else (findIdxPath p fs).map (fun i => i + 1)

/-- `updatePreviewKeepScroll` (src/unnamed/part_006, lines 1402–1492). -/
def updatePreviewKeepScroll (env : Env) (m : Model) (keepScroll : Bool) : Model :=
  if m.previewReady = false ∨ m.files = [] then
    { m with preview := {}, viewport := m.viewport.setContent "",
             lastSelectedFile := -1 }
  else if m.selected = m.lastSelectedFile ∧ m.preview.valid = true then m
  else
    let file := m.files.getD m.selected.toNat {}
    if containsStr file.gitCode "D" then
      applyPreview m { valid := true, message := file.path ++ " was deleted" } keepScroll
    else if isUnsupportedFile file.path then
      let reason := if filepathExt file.path = "" then
          "no file extension — open in your editor" else "not supported in perch"
      applyPreview m
        { valid := true, message := filepathBase file.path ++ "\n" ++ reason } keepScroll
    else
      let gitRoot := if file.gitRoot = "" then m.gitRoot else file.gitRoot
      let dl := if file.status = "uncommitted" then env.diffLines gitRoot file.fullPath else []
      let ds := if file.status = "uncommitted" then env.diffStats gitRoot file.fullPath else {}
      match env.readFile (joinPath m.dir file.path) with
      | none =>
        applyPreview m { valid := true, message := "couldn't read " ++ file.path } keepScroll
      | some content =>
        let rawLines := content.splitOn "\n"
        let highlightedLines :=
          if isMarkdownFile file.path then env.highlightMd rawLines file.path
          else env.highlight content file.path
        applyPreview m
          { valid := true, rawLines := rawLines, highlightedLines := highlightedLines,
            diffLines := dl, diffStats := ds } keepScroll

/-- `recalculateViewport` (src/unnamed/part_006, lines 1385–1396). -/
def recalculateViewport (env : Env) (m : Model) : Model :=
  let previewHeight := max (m.height - m.listHeight - 6) 1
  let m1 := { m with
    viewport := { m.viewport with width := m.width, height := previewHeight },
    previewReady := true }
  updatePreviewKeepScroll env m1 false

/-- The `loadPreviewAsync` dispatch (src/unnamed/part_006, lines 1313–1319):
the command captures the selected index, file entry, directory and git root
at dispatch time. -/
def dispatchLoad (m : Model) (idx : Int) (file : FileStatus) : CmdE :=
  .loadPreview idx file m.dir (if file.gitRoot ≠ "" then file.gitRoot else m.gitRoot)

/-- The body of the closure returned by `loadPreviewAsync`
(src/unnamed/part_006, lines 1321–1382): runs off the main loop against the
captured snapshot and produces the `previewLoadedMsg`. -/
def runLoadPreview (env : Env) (selectedIndex : Int) (file : FileStatus)
    (dir gitRoot : String) : Msg :=
  if containsStr file.gitCode "D" then
    .previewLoaded selectedIndex { valid := true, message := file.path ++ " was deleted" }
  else if isUnsupportedFile file.path then
    let reason := if filepathExt file.path = "" then
        "no file extension — open in your editor" else "not supported in perch"
    .previewLoaded selectedIndex
      { valid := true, message := filepathBase file.path ++ "\n" ++ reason }
  else
    let dl := if file.status = "uncommitted" then env.diffLines gitRoot file.fullPath else []
    let ds := if file.status = "uncommitted" then env.diffStats gitRoot file.fullPath else {}
    match env.readFile (joinPath dir file.path) with
    | none =>
      .previewLoaded selectedIndex { valid := true, message := "couldn't read " ++ file.path }
    | some content =>
      let rawLines := content.splitOn "\n"
      let highlightedLines :=
        if isMarkdownFile file.path then env.highlightMd rawLines file.path
        else env.highlight content file.path
      .previewLoaded selectedIndex
        { valid := true, rawLines := rawLines, highlightedLines := highlightedLines,
          diffLines := dl, diffStats := ds }

/-- The `tea.KeyMsg` case of `Update` (src/unnamed/part_006, lines
1115–1179). -/
def updateKey (env : Env) (m : Model) (k : String) : Model × List CmdE :=
  if k = "q" ∨ k = "ctrl+c" then (m, [.quit])
  else if k = "up" then
    if m.selected > 0 then
      let s := m.selected - 1
      let ls := if s < m.listScroll + 1 then max (s - 1) 0 else m.listScroll
      ({ m with selected := s, listScroll := ls, previewPending := s },
       [.debouncePreview s])
    else (m, [])
  else if k = "down" then
    if m.selected < (m.files.length : Int) - 1 then
      let s := m.selected + 1
      let visibleCapacity := max (m.listHeight - 3) 1
      let bottomBuffer : Int := if visibleCapacity ≤ 2 then 0 else 2
      let ls := if s ≥ m.listScroll + visibleCapacity - bottomBuffer then
          s - visibleCapacity + bottomBuffer + 1 else m.listScroll
      ({ m with selected := s, listScroll := ls, previewPending := s },
       [.debouncePreview s])
    else (m, [])
  else if k = "j" then ({ m with viewport := m.viewport.lineDown 1 }, [])
  else if k = "k" then ({ m with viewport := m.viewport.lineUp 1 }, [])
  else if k = "g" then ({ m with viewport := m.viewport.gotoTop }, [])
  else if k = "G" then ({ m with viewport := m.viewport.gotoBottom }, [])
  else if k = "ctrl+d" then ({ m with viewport := m.viewport.halfViewDown }, [])
  else if k = "ctrl+u" then ({ m with viewport := m.viewport.halfViewUp }, [])
  else if k = "+" ∨ k = "=" then
    if m.listHeight < m.height - 10 then
      (recalculateViewport env { m with listHeight := m.listHeight + 1 }, [])
    else (m, [])
  else if k = "-" ∨ k = "_" then
    if m.listHeight > 3 then
      (recalculateViewport env { m with listHeight := m.listHeight - 1 }, [])
    else (m, [])
  else if k = "shift+up" then
    if m.selected ≠ 0 then
      ({ m with selected := 0, listScroll := 0, previewPending := 0 },
       [.debouncePreview 0])
    else (m, [])
  else (m, [])

/-- The `filesLoadedMsg` case of `Update` (src/unnamed/part_006, lines
1198–1241): resolve the selection by path (auto-follow at index 0), clamp
it, and rebuild the preview, keeping the scroll when the same file stayed
selected. -/
def updateFilesLoaded (env : Env) (m : Model) (files : List FileStatus) :
    Model × List CmdE :=
  let wasAtTop := m.selected = 0
  let selectedPath := oldSelPath m
  let res : Int × Bool :=
    if wasAtTop then
      (0, if files = [] then false
          else if (files.getD 0 {}).path = selectedPath then true else false)
    else
      match findIdxPath selectedPath files with
      | some i => ((i : Int), true)
      | none => (0, false)
  let sel1 := if res.1 ≥ (files.length : Int) then (files.length : Int) - 1 else res.1
  let sel2 := if sel1 < 0 then 0 else sel1
  let m5 := { m with loading := false, files := files, selected := sel2,
                     lastSelectedFile := -1 }
  (updatePreviewKeepScroll env m5 res.2, [])

/-- The `previewRequestMsg` case of `Update` (src/unnamed/part_006, lines
1255–1275): honour the request only if it is still the pending one, serve
committed files from the path-keyed cache, else dispatch the async load. -/
def updatePreviewRequest (env : Env) (m : Model) (idx : Int) : Model × List CmdE :=
  if idx ≠ m.previewPending then (m, [])
  else if idx < 0 ∨ idx ≥ (m.files.length : Int) then (m, [])
  else
    let file := m.files.getD idx.toNat {}
    match amFind m.previewCache file.path with
    | some cached =>
      if file.status = "committed" then
        let m1 := setPreviewContent { m with preview := cached }
        let m2 := { m1 with viewport := m1.viewport.gotoTop }
        ({ m2 with lastSelectedFile := idx, previewPending := -1 }, [])
      else (m, [dispatchLoad m idx file])
    | none => (m, [dispatchLoad m idx file])

/-- The `previewLoadedMsg` case of `Update` (src/unnamed/part_006, lines
1277–1306): apply only if still targeting the current selection, cache
committed previews, render, and auto-scroll uncommitted diffs. -/
def updatePreviewLoaded (env : Env) (m : Model) (idx : Int) (pc : PreviewContent) :
    Model × List CmdE :=
  if idx ≠ m.selected then (m, [])
  else
    -- Go reads `m.files[msg.selectedIndex]` twice and `m.preview.DiffLines`
    -- after the assignment `m.preview = msg.preview`; rendering only touches
    -- the wrap cache, so those equal `file` and `pc.diffLines` here, and the
    -- two nested in-range checks collapse into the branch conditions.
    let file := m.files.getD idx.toNat {}
    let newCache := if idx < (m.files.length : Int) ∧ file.status = "committed" then
        amInsert m.previewCache file.path pc
      else m.previewCache
    let m3 := setPreviewContent { m with preview := pc, previewCache := newCache }
    let m4 := if idx < (m.files.length : Int) ∧ file.status = "uncommitted" ∧
                  pc.diffLines ≠ [] then
        scrollToFirstDiff m3
      else { m3 with viewport := m3.viewport.gotoTop }
    ({ m4 with lastSelectedFile := idx, previewPending := -1 }, [])

/-- The `tea.MouseMsg` case of `Update` (src/unnamed/part_006, lines
1181–1191). -/
def updateMouse (m : Model) (isUp : Bool) (y : Int) : Model × List CmdE :=
  if y > m.listHeight + 3 then
    ({ m with viewport := if isUp then m.viewport.lineUp 3 else m.viewport.lineDown 3 }, [])
  else (m, [])

/-- The `TickMsg` case of `Update` (src/unnamed/part_006, lines 1246–1253). -/
def updateTick (m : Model) : Model × List CmdE :=
  ({ m with sparkleOn := !m.sparkleOn,
            loadingFrame := if m.loading then m.loadingFrame + 1 else m.loadingFrame },
   [.tickTimer, .loadFiles])

/-- `Update` (src/unnamed/part_006, lines 1111–1310): the single-threaded
message-driven state transition function. -/
def update (env : Env) (m : Model) : Msg → Model × List CmdE
  | .key k => updateKey env m k
  | .mouseWheel isUp y => updateMouse m isUp y
  | .windowSize w h =>
    (recalculateViewport env { m with width := w, height := h }, [])
  | .filesLoaded files => updateFilesLoaded env m files
  | .refresh => (m, [.loadFiles])
  | .tick => updateTick m
  | .previewRequest i => updatePreviewRequest env m i
  | .previewLoaded i pc => updatePreviewLoaded env m i pc

/-- Apply a sequence of delivered messages in order, collecting the
commands each step returned (the event loop's delivery-order guarantee,
spec §5). -/
def updates (env : Env) (m : Model) (msgs : List Msg) : Model × List CmdE :=
  msgs.foldl
    (fun acc msg =>
      let r := update env acc.1 msg
      (r.1, acc.2 ++ r.2))
    (m, [])

/-- Number of background preview loads among a command list. -/
def loadCount (cs : List CmdE) : Nat :=
  (cs.filter (fun c => match c with | .loadPreview _ _ _ _ => true | _ => false)).length

/-- Number of background preview loads targeting a given index. -/
def loadCountFor (idx : Int) (cs : List CmdE) : Nat :=
  (cs.filter (fun c => match c with
    | .loadPreview i _ _ _ => i = idx
    | _ => false)).length

/-- The selection invariant of spec §3 (`SelectionState`): the selected
index is 0 on an empty list and otherwise lies in `[0, len(files)-1]`. -/
def SelInv (m : Model) : Prop :=
  (m.files = [] → m.selected = 0) ∧
  (m.files ≠ [] → 0 ≤ m.selected ∧ m.selected < (m.files.length : Int))

/-! ## Concrete fixtures used to instantiate the claims -/

/-- An uncommitted (modified, unstaged) file entry. -/
def fU (p : String) : FileStatus :=
  { status := "uncommitted", gitCode := " M", path := p, fullPath := p }

/-- A committed file entry. -/
def fC (p : String) : FileStatus :=
  { status := "committed", path := p, fullPath := p, commit := "abc1234" }

/-- A loaded preview rendered as a plain message (keeps evaluation small). -/
def pcMsgA : PreviewContent := { valid := true, message := "cached A" }

def pcMsgB : PreviewContent := { valid := true, message := "loaded B" }

/-- Four uncommitted files, selection following the newest at index 0. -/
def mDebounce : Model :=
  { files := [fU "a.go", fU "b.go", fU "c.go", fU "d.go"],
    selected := 0, previewReady := true, width := 80, height := 40 }

/-- Three selection changes inside one debounce window (the last one
returning to index 1), then the three timer firings in delivery order. -/
def msgsDebounceRevisit : List Msg :=
  [.key "down", .key "down", .key "up",
   .previewRequest 1, .previewRequest 2, .previewRequest 1]

/-- Three monotone selection changes inside one debounce window, then the
three timer firings in delivery order. -/
def msgsDebounceMono : List Msg :=
  [.key "down", .key "down", .key "down",
   .previewRequest 1, .previewRequest 2, .previewRequest 3]

/-- Two committed files, the first one already cached. -/
def mCommitted : Model :=
  { files := [fC "a.go", fC "b.go"], selected := 0, previewReady := true,
    width := 80, height := 40, previewCache := [("a.go", pcMsgA)] }

/-- Select committed `b.go`, load it, move away (cached `a.go`), and select
`b.go` again: its second selection must be served from the cache. -/
def msgsCommittedTwice : List Msg :=
  [.key "down", .previewRequest 1, .previewLoaded 1 pcMsgB,
   .key "up", .previewRequest 0,
   .key "down", .previewRequest 1]

/-- Two uncommitted files, nothing cached. -/
def mUncommitted : Model :=
  { files := [fU "a.go", fU "b.go"], selected := 0, previewReady := true,
    width := 80, height := 40 }

/-- Select uncommitted `b.go` twice, with both loads completing in
between: both selections must dispatch a load. -/
def msgsUncommittedTwice : List Msg :=
  [.key "down", .previewRequest 1, .previewLoaded 1 pcMsgB,
   .key "up", .previewRequest 0, .previewLoaded 0 pcMsgA,
   .key "down", .previewRequest 1]

/-- `mUncommitted` with uncommitted `b.go` selected and its debounce
pending. -/
def mReq : Model := { mUncommitted with selected := 1, previewPending := 1 }

/-- A ten-line preview of an uncommitted file whose only changed line is
line 8; wrapped at width 80 each logical line stays one visual line, so the
first diff segment sits at index 7 and the auto-scroll target is 7-3 = 4. -/
def pcDiffAt8 : PreviewContent :=
  { valid := true,
    rawLines := ["l1", "l2", "l3", "l4", "l5", "l6", "l7", "l8", "l9", "l10"],
    highlightedLines := ["l1", "l2", "l3", "l4", "l5", "l6", "l7", "l8", "l9", "l10"],
    diffLines := [(8, "added")] }

/-- One uncommitted file with a stale scroll position. -/
def mScroll : Model :=
  { files := [fU "a.go"], selected := 0, previewReady := true,
    width := 80, height := 40, viewport := { yOffset := 7 } }

/-! ## Diff classifier claims -/

/-- Claim C1: after a hunk header, a line beginning with `+` (but not `+++`)
first increments the running counter and records `added` at the new counter
value; the header `@@ -5,0 +5,2 @@` initializes the counter to 5 - 1 = 4; in
particular the diff `@@ -5,0 +5,2 @@`, `+foo`, `+bar` classifies to exactly
the map with 5 and 6 mapped to `added`, with counts 2 added and 0 deleted. -/
theorem getDiffLines_added_records_at_incremented_counter :
    (∀ (st : DiffState) (l : Line),
        pref ['+'] l = true → pref ['+', '+', '+'] l = false →
        diffStep st l =
          { lineNum := st.lineNum + 1,
            result := amInsert st.result (st.lineNum + 1) "added" }) ∧
    (∀ st : DiffState,
        diffStep st ("@@ -5,0 +5,2 @@".toList) = { st with lineNum := 4 }) ∧
    getDiffLines ["@@ -5,0 +5,2 @@".toList, "+foo".toList, "+bar".toList]
      = [(5, "added"), (6, "added")] ∧
    diffAddedCount ["@@ -5,0 +5,2 @@".toList, "+foo".toList, "+bar".toList] = 2 ∧
    diffDeletedCount ["@@ -5,0 +5,2 @@".toList, "+foo".toList, "+bar".toList] = 0 := by
  refine ⟨?_, ?_, by decide, by decide, by decide⟩
  · intro st l h1 h2
    match l with
    | [] => simp [pref] at h1
    | c :: rest =>
      have hc : '+' = c := by simpa [pref] using h1
      subst hc
      have h2' : pref ['+', '+'] rest = false := by simpa [pref] using h2
      unfold diffStep
      rw [if_neg (by simp [pref]), if_pos (by simp [pref, h2'])]
  · intro st
    rfl

/-- Concrete instance discharging the hypotheses of the `+`-line step
property of claim C1. -/
theorem getDiffLines_added_witness :
    diffStep { lineNum := 4, result := [] } "+foo".toList
      = { lineNum := 5, result := [(5, "added")] } := by
  have h := getDiffLines_added_records_at_incremented_counter.1
    { lineNum := 4, result := [] } "+foo".toList (by decide) (by decide)
  simpa [amInsert] using h

/-- Claim C2: a line beginning with `-` (but not `---`) records `deleted` at
the current counter value without incrementing; for the pure-deletion hunk
`@@ -3,2 +3,0 @@`, `-old1`, `-old2`, the counter is initialized to 3 - 1 = 2
and both deletions land on key 2, so the map holds the single entry
2 ↦ `deleted`. -/
theorem getDiffLines_deleted_records_at_current_counter :
    (∀ (st : DiffState) (l : Line),
        pref ['-'] l = true → pref ['-', '-', '-'] l = false →
        diffStep st l =
          { st with result := amInsert st.result st.lineNum "deleted" }) ∧
    getDiffLines ["@@ -3,2 +3,0 @@".toList, "-old1".toList, "-old2".toList]
      = [(2, "deleted")] := by
  refine ⟨?_, by decide⟩
  intro st l h1 h2
  match l with
  | [] => simp [pref] at h1
  | c :: rest =>
    have hc : '-' = c := by simpa [pref] using h1
    subst hc
    have h2' : pref ['-', '-'] rest = false := by simpa [pref] using h2
    unfold diffStep
    rw [if_neg (by simp [pref]), if_neg (by simp [pref]), if_pos (by simp [pref, h2'])]

/-- Concrete instance discharging the hypotheses of the `-`-line step
property of claim C2. -/
theorem getDiffLines_deleted_witness :
    diffStep { lineNum := 2, result := [] } "-old1".toList
      = { lineNum := 2, result := [(2, "deleted")] } := by
  have h := getDiffLines_deleted_records_at_current_counter.1
    { lineNum := 2, result := [] } "-old1".toList (by decide) (by decide)
  simpa [amInsert] using h

/-! ## Helper lemmas -/

theorem amFind_amInsert_self {α β : Type} [DecidableEq α]
    (m : List (α × β)) (k : α) (v : β) : amFind (amInsert m k v) k = some v := by
  induction m with
  | nil => simp [amInsert, amFind]
  | cons hd tl ih =>
    obtain ⟨a, b⟩ := hd
    by_cases hak : a = k
    · simp [amInsert, amFind, hak]
    · simp [amInsert, amFind, hak, ih]

theorem findIdxPath_lt (p : String) :
    ∀ (fs : List FileStatus) (i : Nat), findIdxPath p fs = some i → i < fs.length := by
  intro fs
  induction fs with
  | nil => intro i h; simp [findIdxPath] at h
  | cons f rest ih =>
    intro i h
    by_cases hf : f.path = p
    · have hi : i = 0 := by
        rw [findIdxPath, if_pos hf] at h
        exact (Option.some_inj.mp h).symm
      simp [hi]
    · rw [findIdxPath, if_neg hf] at h
      obtain ⟨j, hj, hji⟩ := Option.map_eq_some'.mp h
      have hlt := ih j hj
      subst hji
      simp only [List.length_cons]
      omega

@[simp] theorem setPreviewContent_selected (m : Model) :
    (setPreviewContent m).selected = m.selected := rfl

@[simp] theorem setPreviewContent_files (m : Model) :
    (setPreviewContent m).files = m.files := rfl

@[simp] theorem setPreviewContent_pending (m : Model) :
    (setPreviewContent m).previewPending = m.previewPending := rfl

@[simp] theorem setPreviewContent_cache (m : Model) :
    (setPreviewContent m).previewCache = m.previewCache := rfl

@[simp] theorem setPreviewContent_lastSel (m : Model) :
    (setPreviewContent m).lastSelectedFile = m.lastSelectedFile := rfl

@[simp] theorem setPreviewContent_yOffset (m : Model) :
    (setPreviewContent m).viewport.yOffset = m.viewport.yOffset := rfl

@[simp] theorem applyPreview_selected (m : Model) (pc : PreviewContent) (ks : Bool) :
    (applyPreview m pc ks).selected = m.selected := by
  unfold applyPreview
  split <;> rfl

@[simp] theorem applyPreview_files (m : Model) (pc : PreviewContent) (ks : Bool) :
    (applyPreview m pc ks).files = m.files := by
  unfold applyPreview
  split <;> rfl

@[simp] theorem applyPreview_pending (m : Model) (pc : PreviewContent) (ks : Bool) :
    (applyPreview m pc ks).previewPending = m.previewPending := by
  unfold applyPreview
  split <;> rfl

@[simp] theorem applyPreview_cache (m : Model) (pc : PreviewContent) (ks : Bool) :
    (applyPreview m pc ks).previewCache = m.previewCache := by
  unfold applyPreview
  split <;> rfl

@[simp] theorem applyPreview_lastSel (m : Model) (pc : PreviewContent) (ks : Bool) :
    (applyPreview m pc ks).lastSelectedFile = m.selected := by
  unfold applyPreview
  split <;> rfl

@[simp] theorem applyPreview_yOffset_keep (m : Model) (pc : PreviewContent) :
    (applyPreview m pc true).viewport.yOffset = m.viewport.yOffset := rfl

@[simp] theorem applyPreview_yOffset_fresh (m : Model) (pc : PreviewContent) :
    (applyPreview m pc false).viewport.yOffset = 0 := rfl

theorem upks_selected (env : Env) (m : Model) (ks : Bool) :
    (updatePreviewKeepScroll env m ks).selected = m.selected := by
  unfold updatePreviewKeepScroll
  split
  · rfl
  split
  · rfl
  dsimp only
  split
  · simp
  split
  · simp
  split <;> simp

theorem upks_files (env : Env) (m : Model) (ks : Bool) :
    (updatePreviewKeepScroll env m ks).files = m.files := by
  unfold updatePreviewKeepScroll
  split
  · rfl
  split
  · rfl
  dsimp only
  split
  · simp
  split
  · simp
  split <;> simp

theorem upks_yOffset_keep (env : Env) (m : Model) :
    (updatePreviewKeepScroll env m true).viewport.yOffset = m.viewport.yOffset := by
  unfold updatePreviewKeepScroll
  split
  · rfl
  split
  · rfl
  dsimp only
  split
  · simp
  split
  · simp
  split <;> simp

theorem upks_rebuild_yOffset (env : Env) (m : Model)
    (hr : m.previewReady = true) (hf : m.files ≠ [])
    (hs : ¬(m.selected = m.lastSelectedFile ∧ m.preview.valid = true)) :
    (updatePreviewKeepScroll env m false).viewport.yOffset = 0 := by
  unfold updatePreviewKeepScroll
  rw [if_neg (by simp [hr, hf]), if_neg hs]
  dsimp only
  split
  · simp
  split
  · simp
  split <;> simp

theorem upks_rebuild_lastSel (env : Env) (m : Model) (ks : Bool)
    (hr : m.previewReady = true) (hf : m.files ≠ [])
    (hs : ¬(m.selected = m.lastSelectedFile ∧ m.preview.valid = true)) :
    (updatePreviewKeepScroll env m ks).lastSelectedFile = m.selected := by
  unfold updatePreviewKeepScroll
  rw [if_neg (by simp [hr, hf]), if_neg hs]
  dsimp only
  split
  · simp
  split
  · simp
  split <;> simp

theorem recalc_selected (env : Env) (m : Model) :
    (recalculateViewport env m).selected = m.selected := by
  unfold recalculateViewport
  simp [upks_selected]

theorem recalc_files (env : Env) (m : Model) :
    (recalculateViewport env m).files = m.files := by
  unfold recalculateViewport
  simp [upks_files]

@[simp] theorem scrollToFirstDiff_selected (m : Model) :
    (scrollToFirstDiff m).selected = m.selected := by
  unfold scrollToFirstDiff
  dsimp only
  split
  · rfl
  split <;> rfl

@[simp] theorem scrollToFirstDiff_files (m : Model) :
    (scrollToFirstDiff m).files = m.files := by
  unfold scrollToFirstDiff
  dsimp only
  split
  · rfl
  split <;> rfl

@[simp] theorem scrollToFirstDiff_cache (m : Model) :
    (scrollToFirstDiff m).previewCache = m.previewCache := by
  unfold scrollToFirstDiff
  dsimp only
  split
  · rfl
  split <;> rfl

theorem upr_selected (env : Env) (m : Model) (idx : Int) :
    (updatePreviewRequest env m idx).1.selected = m.selected := by
  unfold updatePreviewRequest
  split
  · rfl
  split
  · rfl
  dsimp only
  split
  · split <;> rfl
  · rfl

theorem upr_files (env : Env) (m : Model) (idx : Int) :
    (updatePreviewRequest env m idx).1.files = m.files := by
  unfold updatePreviewRequest
  split
  · rfl
  split
  · rfl
  dsimp only
  split
  · split <;> rfl
  · rfl

theorem upl_selected (env : Env) (m : Model) (idx : Int) (pc : PreviewContent) :
    (updatePreviewLoaded env m idx pc).1.selected = m.selected := by
  unfold updatePreviewLoaded
  split
  · rfl
  dsimp only
  repeat' split
  all_goals simp

theorem upl_files (env : Env) (m : Model) (idx : Int) (pc : PreviewContent) :
    (updatePreviewLoaded env m idx pc).1.files = m.files := by
  unfold updatePreviewLoaded
  split
  · rfl
  dsimp only
  repeat' split
  all_goals simp

/-- Carry `SelInv` across a model whose selection and file list agree. -/
theorem SelInv_congr (m m' : Model) (hs : m'.selected = m.selected)
    (hf : m'.files = m.files) (h : SelInv m) : SelInv m' := by
  unfold SelInv at h ⊢
  rw [hs, hf]
  exact h

/-! ## UI claims -/

/-- Claim C4: a `previewLoadedMsg` whose carried target index differs from
the then-current selection is discarded: the update returns the model
completely unchanged (preview, viewport, cache, selection) and no command,
so a stale load result is never rendered. -/
theorem previewLoaded_stale_discarded (env : Env) (m : Model) (idx : Int)
    (pc : PreviewContent) (h : idx ≠ m.selected) :
    update env m (.previewLoaded idx pc) = (m, []) := by
  show updatePreviewLoaded env m idx pc = (m, [])
  unfold updatePreviewLoaded
  rw [if_pos h]

/-- Stale preview load at a concrete input: index 1 arrives while index 2 is
selected and changes nothing. -/
theorem previewLoaded_stale_discarded_witness :
    update envNil { selected := 2 } (.previewLoaded 1 {}) = ({ selected := 2 }, []) :=
  previewLoaded_stale_discarded envNil { selected := 2 } 1 {} (by decide)

/-- Claim C9: every preview produced by the async loader with a non-empty
message carries no content lines (raw or highlighted), and a file whose git
code contains the delete code gets exactly the message
`<path> was deleted`. -/
theorem loadPreview_message_excludes_lines (env : Env) (idx : Int)
    (file : FileStatus) (dir gitRoot : String) :
    ((runLoadPreview env idx file dir gitRoot).loadedPreview.message ≠ "" →
      (runLoadPreview env idx file dir gitRoot).loadedPreview.rawLines = [] ∧
      (runLoadPreview env idx file dir gitRoot).loadedPreview.highlightedLines = []) ∧
    (containsStr file.gitCode "D" = true →
      (runLoadPreview env idx file dir gitRoot).loadedPreview.message
        = file.path ++ " was deleted") := by
  unfold runLoadPreview
  dsimp only
  split
  · exact ⟨fun _ => ⟨rfl, rfl⟩, fun _ => rfl⟩
  case isFalse hd =>
    split
    · exact ⟨fun _ => ⟨rfl, rfl⟩, fun hD => absurd hD hd⟩
    · split
      · exact ⟨fun _ => ⟨rfl, rfl⟩, fun hD => absurd hD hd⟩
      · refine ⟨fun hm => absurd rfl hm, fun hD => absurd hD hd⟩

/-- Concrete instance of claim C9: a deleted file's preview is the exact
deletion message with no content lines. -/
theorem loadPreview_message_witness :
    (runLoadPreview envNil 0 { gitCode := " D", path := "a.txt" } "." "/").loadedPreview.message
        = "a.txt was deleted" ∧
    (runLoadPreview envNil 0 { gitCode := " D", path := "a.txt" } "." "/").loadedPreview.rawLines
        = [] := by
  have h := loadPreview_message_excludes_lines envNil 0
    { gitCode := " D", path := "a.txt" } "." "/"
  refine ⟨?_, ?_⟩
  · have := h.2 (by decide)
    simpa using this
  · exact (h.1 (by rw [h.2 (by decide)]; decide)).1

/-- Claim C3: on a file-list refresh, a selection at index 0 stays at 0
(auto-follow); otherwise the selection moves to the first entry of the new
list carrying the previously selected path, and falls back to 0 when no
such entry exists; the result is clamped into the new list's range. -/
theorem filesLoaded_selection_resolution (env : Env) (m : Model)
    (files : List FileStatus) :
    (m.selected = 0 → (update env m (.filesLoaded files)).1.selected = 0) ∧
    (∀ i : Nat, m.selected ≠ 0 → findIdxPath (oldSelPath m) files = some i →
      (update env m (.filesLoaded files)).1.selected = (i : Int)) ∧
    (m.selected ≠ 0 → findIdxPath (oldSelPath m) files = none →
      (update env m (.filesLoaded files)).1.selected = 0) := by
  refine ⟨?_, ?_, ?_⟩
  · intro h0
    show (updateFilesLoaded env m files).1.selected = 0
    unfold updateFilesLoaded
    dsimp only
    rw [upks_selected, if_pos h0]
    dsimp only
    split_ifs <;> (try simp_all) <;> omega
  · intro i hne hf
    show (updateFilesLoaded env m files).1.selected = (i : Int)
    unfold updateFilesLoaded
    dsimp only
    rw [upks_selected, if_neg hne, hf]
    dsimp only
    have hlt := findIdxPath_lt _ _ _ hf
    split_ifs <;> (try simp_all) <;> omega
  · intro hne hf
    show (updateFilesLoaded env m files).1.selected = 0
    unfold updateFilesLoaded
    dsimp only
    rw [upks_selected, if_neg hne, hf]
    dsimp only
    split_ifs <;> (try simp_all) <;> omega

/-- The concrete selection-persistence and auto-follow scenarios of claim
C3: `b.txt` selected at index 1 reappearing at index 3 yields selection 3,
and a selection at index 0 stays at 0 when a new file tops the list. -/
theorem filesLoaded_selection_witness :
    (update envNil
        { files := [fU "a.txt", fU "b.txt", fU "c.txt"], selected := 1 }
        (.filesLoaded [fU "x.txt", fU "y.txt", fU "z.txt", fU "b.txt"])).1.selected = 3 ∧
    (update envNil
        { files := [fU "a.txt", fU "b.txt"], selected := 0 }
        (.filesLoaded [fU "n.txt", fU "a.txt", fU "b.txt"])).1.selected = 0 := by
  constructor
  · exact (filesLoaded_selection_resolution envNil
      { files := [fU "a.txt", fU "b.txt", fU "c.txt"], selected := 1 }
      [fU "x.txt", fU "y.txt", fU "z.txt", fU "b.txt"]).2.1 3 (by decide) (by decide)
  · exact (filesLoaded_selection_resolution envNil
      { files := [fU "a.txt", fU "b.txt"], selected := 0 }
      [fU "n.txt", fU "a.txt", fU "b.txt"]).1 (by decide)

/-- Claim C8: every update step (keys, mouse, resize, refreshes, debounce
and load messages) preserves the selection invariant: the selected index is
0 on an empty file list and otherwise lies in `[0, len(files)-1]`. -/
theorem update_preserves_selection_invariant (env : Env) (m : Model) (msg : Msg)
    (h : SelInv m) : SelInv (update env m msg).1 := by
  obtain ⟨ha, hb⟩ := h
  cases msg with
  | key k =>
    show SelInv (updateKey env m k).1
    unfold updateKey
    by_cases h1 : k = "q" ∨ k = "ctrl+c"
    · rw [if_pos h1]; exact ⟨ha, hb⟩
    rw [if_neg h1]
    by_cases h2 : k = "up"
    · rw [if_pos h2]
      by_cases hg : m.selected > 0
      · rw [if_pos hg]
        dsimp only
        refine ⟨fun hfe => absurd (ha hfe) (by omega), fun hfe => ?_⟩
        have hbb := hb hfe
        dsimp only
        omega
      · rw [if_neg hg]; exact ⟨ha, hb⟩
    rw [if_neg h2]
    by_cases h3 : k = "down"
    · rw [if_pos h3]
      by_cases hg : m.selected < (m.files.length : Int) - 1
      · rw [if_pos hg]
        dsimp only
        refine ⟨fun hfe => ?_, fun hfe => ?_⟩
        · have h0 := ha hfe
          have hlen : m.files.length = 0 := by rw [hfe]; rfl
          dsimp only
          omega
        · have hbb := hb hfe
          dsimp only
          omega
      · rw [if_neg hg]; exact ⟨ha, hb⟩
    rw [if_neg h3]
    by_cases h4 : k = "j"
    · rw [if_pos h4]; exact ⟨ha, hb⟩
    rw [if_neg h4]
    by_cases h5 : k = "k"
    · rw [if_pos h5]; exact ⟨ha, hb⟩
    rw [if_neg h5]
    by_cases h6 : k = "g"
    · rw [if_pos h6]; exact ⟨ha, hb⟩
    rw [if_neg h6]
    by_cases h7 : k = "G"
    · rw [if_pos h7]; exact ⟨ha, hb⟩
    rw [if_neg h7]
    by_cases h8 : k = "ctrl+d"
    · rw [if_pos h8]; exact ⟨ha, hb⟩
    rw [if_neg h8]
    by_cases h9 : k = "ctrl+u"
    · rw [if_pos h9]; exact ⟨ha, hb⟩
    rw [if_neg h9]
    by_cases h10 : k = "+" ∨ k = "="
    · rw [if_pos h10]
      by_cases hg : m.listHeight < m.height - 10
      · rw [if_pos hg]
        exact SelInv_congr m _ (recalc_selected _ _) (recalc_files _ _) ⟨ha, hb⟩
      · rw [if_neg hg]; exact ⟨ha, hb⟩
    rw [if_neg h10]
    by_cases h11 : k = "-" ∨ k = "_"
    · rw [if_pos h11]
      by_cases hg : m.listHeight > 3
      · rw [if_pos hg]
        exact SelInv_congr m _ (recalc_selected _ _) (recalc_files _ _) ⟨ha, hb⟩
      · rw [if_neg hg]; exact ⟨ha, hb⟩
    rw [if_neg h11]
    by_cases h12 : k = "shift+up"
    · rw [if_pos h12]
      by_cases hg : m.selected ≠ 0
      · rw [if_pos hg]
        refine ⟨fun _ => rfl, fun hfe => ?_⟩
        have hlen : 0 < m.files.length := List.length_pos.mpr hfe
        dsimp only
        omega
      · rw [if_neg hg]; exact ⟨ha, hb⟩
    rw [if_neg h12]
    exact ⟨ha, hb⟩
  | mouseWheel isUp y =>
    show SelInv (updateMouse m isUp y).1
    unfold updateMouse
    split_ifs <;> exact ⟨ha, hb⟩
  | windowSize w hh =>
    exact SelInv_congr m _ (recalc_selected _ _) (recalc_files _ _) ⟨ha, hb⟩
  | refresh => exact ⟨ha, hb⟩
  | tick => exact ⟨ha, hb⟩
  | previewRequest i =>
    exact SelInv_congr m _ (upr_selected env m i) (upr_files env m i) ⟨ha, hb⟩
  | previewLoaded i pc =>
    exact SelInv_congr m _ (upl_selected env m i pc) (upl_files env m i pc) ⟨ha, hb⟩
  | filesLoaded files =>
    show SelInv (updateFilesLoaded env m files).1
    unfold updateFilesLoaded
    dsimp only
    refine SelInv_congr _ _ (upks_selected _ _ _) (upks_files _ _ _) ?_
    unfold SelInv
    constructor <;> intro hfe <;> dsimp only at hfe
    · subst hfe
      dsimp only [findIdxPath]
      split_ifs <;> (try simp_all) <;> omega
    · have hlen : 0 < files.length := List.length_pos.mpr hfe
      rcases hmm : findIdxPath (oldSelPath m) files with _ | i
      · dsimp only
        split_ifs <;> (try simp_all) <;> omega
      · have hlt := findIdxPath_lt _ _ _ hmm
        dsimp only
        split_ifs <;> (try simp_all) <;> omega

/-- Concrete instance of claim C8: a key step from a valid state keeps the
invariant. -/
theorem update_preserves_selection_invariant_witness :
    SelInv (update envNil mUncommitted (.key "down")).1 :=
  update_preserves_selection_invariant envNil mUncommitted (.key "down")
    (by constructor <;> intro hfe <;> simp_all [mUncommitted] <;> decide)

/-- Claim C10: a periodic refresh that resolves the selection to the same
path as before rebuilds the preview but preserves the viewport scroll
offset (both in the auto-follow branch and in the found-by-path branch);
when the refresh resolves to a different file (and a rebuild actually runs:
preview ready, non-empty list) the scroll resets to the top; and on every
such rebuild the loaded-file marker is refreshed, i.e. the forced rebuild
(`lastSelectedFile = -1`) never takes the skip branch. -/
theorem filesLoaded_keeps_scroll_on_same_path (env : Env) (m : Model)
    (files : List FileStatus) :
    ((m.selected = 0 ∧ files ≠ [] ∧ (files.getD 0 {}).path = oldSelPath m) →
      (update env m (.filesLoaded files)).1.viewport.yOffset = m.viewport.yOffset) ∧
    ((m.selected ≠ 0 ∧ ∃ i, findIdxPath (oldSelPath m) files = some i) →
      (update env m (.filesLoaded files)).1.viewport.yOffset = m.viewport.yOffset) ∧
    (m.previewReady = true → files ≠ [] →
      ((m.selected = 0 ∧ (files.getD 0 {}).path ≠ oldSelPath m) ∨
       (m.selected ≠ 0 ∧ findIdxPath (oldSelPath m) files = none)) →
      (update env m (.filesLoaded files)).1.viewport.yOffset = 0) ∧
    (m.previewReady = true → files ≠ [] →
      (update env m (.filesLoaded files)).1.lastSelectedFile
        = (update env m (.filesLoaded files)).1.selected) := by
  refine ⟨?_, ?_, ?_, ?_⟩
  · rintro ⟨h0, hne, hpath⟩
    show (updateFilesLoaded env m files).1.viewport.yOffset = m.viewport.yOffset
    unfold updateFilesLoaded
    dsimp only
    rw [if_pos h0, if_neg hne, if_pos hpath]
    dsimp only
    rw [upks_yOffset_keep]
  · rintro ⟨hne0, i, hfind⟩
    show (updateFilesLoaded env m files).1.viewport.yOffset = m.viewport.yOffset
    unfold updateFilesLoaded
    dsimp only
    rw [if_neg hne0, hfind]
    dsimp only
    rw [upks_yOffset_keep]
  · intro hr hfne hdiff
    show (updateFilesLoaded env m files).1.viewport.yOffset = 0
    unfold updateFilesLoaded
    dsimp only
    rcases hdiff with ⟨h0, hp⟩ | ⟨hne0, hfind⟩
    · rw [if_pos h0, if_neg hfne, if_neg hp]
      dsimp only
      refine upks_rebuild_yOffset env _ hr hfne ?_
      rintro ⟨hEq, _⟩
      dsimp only at hEq
      split_ifs at hEq <;> omega
    · rw [if_neg hne0, hfind]
      dsimp only
      refine upks_rebuild_yOffset env _ hr hfne ?_
      rintro ⟨hEq, _⟩
      dsimp only at hEq
      split_ifs at hEq <;> omega
  · intro hr hfne
    show (updateFilesLoaded env m files).1.lastSelectedFile
        = (updateFilesLoaded env m files).1.selected
    unfold updateFilesLoaded
    dsimp only
    rw [upks_selected]
    refine upks_rebuild_lastSel env _ _ hr hfne ?_
    rintro ⟨hEq, _⟩
    dsimp only at hEq
    split_ifs at hEq <;> omega

/-- Concrete instance of claim C10: refreshing while `b.txt` stays selected
(moving from index 1 to index 2) keeps a scroll offset of 5. -/
theorem filesLoaded_keeps_scroll_witness :
    (update envNil
        { files := [fU "a.txt", fU "b.txt"], selected := 1, previewReady := true,
          viewport := { yOffset := 5 } }
        (.filesLoaded [fU "n.txt", fU "a.txt", fU "b.txt"])).1.viewport.yOffset = 5 := by
  have h := (filesLoaded_keeps_scroll_on_same_path envNil
      { files := [fU "a.txt", fU "b.txt"], selected := 1, previewReady := true,
        viewport := { yOffset := 5 } }
      [fU "n.txt", fU "a.txt", fU "b.txt"]).2.1 ⟨by decide, 2, by decide⟩
  simpa using h

/-- The scroll offset `scrollToFirstDiff` leaves: top when no wrapped line
carries a diff status, else the first such index minus three lines of
context, clamped at zero, and snapped to the top when within two lines of
it. -/
theorem scrollToFirstDiff_yOffset (m : Model) :
    (scrollToFirstDiff m).viewport.yOffset =
      (match findDiffIdx (m.preview.wrappedLinesForWidth m.width).1 with
       | none => 0
       | some i =>
         if max ((i : Int) - 3) 0 ≤ 2 then 0 else max ((i : Int) - 3) 0) := by
  unfold scrollToFirstDiff
  dsimp only
  rcases h : findDiffIdx (m.preview.wrappedLinesForWidth m.width).1 with _ | i
  · rfl
  · dsimp only
    split_ifs <;> rfl

/-- A cache miss at width `w` makes the wrap accessor compute
`wrapAllLines` and store it. -/
theorem wrappedLinesForWidth_miss (pc : PreviewContent) (w : Int)
    (hc : amFind pc.wrappedByWidth w = none) :
    pc.wrappedLinesForWidth w =
      (wrapAllLines pc.highlightedLines pc.rawLines pc.diffLines w,
       { pc with
           wrappedByWidth :=
             amInsert pc.wrappedByWidth w
               (wrapAllLines pc.highlightedLines pc.rawLines pc.diffLines w) }) := by
  unfold PreviewContent.wrappedLinesForWidth
  rw [hc]

/-- Rendering never changes which wrapped lines the preview yields at the
render width: on a cache miss they are `wrapAllLines` of the preview's
content, whether the message/empty branches skipped wrapping or the normal
branch populated the cache. -/
theorem renderPreview_wrap (pc : PreviewContent) (w : Int)
    (hc : amFind pc.wrappedByWidth w = none) :
    ((renderPreview pc w).2.wrappedLinesForWidth w).1
      = wrapAllLines pc.highlightedLines pc.rawLines pc.diffLines w := by
  unfold renderPreview
  dsimp only
  split
  · rw [wrappedLinesForWidth_miss pc w hc]
  · split
    · rw [wrappedLinesForWidth_miss pc w hc]
    · split
      · rw [wrappedLinesForWidth_miss pc w hc]
      · rw [wrappedLinesForWidth_miss pc w hc]
        dsimp only
        unfold PreviewContent.wrappedLinesForWidth
        dsimp only
        rw [amFind_amInsert_self]

/-- Claim C7: when a loaded preview is applied for an uncommitted file with
a non-empty diff-line map, the viewport offset becomes the index of the
first wrapped visual line carrying a diff status minus three lines of
leading context, except that a target within two lines of the top snaps to
the top; committed files and files with no diff lines always reset to the
top. -/
theorem previewLoaded_autoscroll (env : Env) (m : Model) (pc : PreviewContent)
    (hlt : m.selected < (m.files.length : Int))
    (hcache : amFind pc.wrappedByWidth m.width = none) :
    ((m.files.getD m.selected.toNat {}).status = "uncommitted" →
      pc.diffLines ≠ [] →
      (update env m (.previewLoaded m.selected pc)).1.viewport.yOffset =
        (match findDiffIdx
            (wrapAllLines pc.highlightedLines pc.rawLines pc.diffLines m.width) with
         | none => 0
         | some i => if (i : Int) - 3 ≤ 2 then 0 else (i : Int) - 3)) ∧
    (((m.files.getD m.selected.toNat {}).status = "committed" ∨ pc.diffLines = []) →
      (update env m (.previewLoaded m.selected pc)).1.viewport.yOffset = 0) := by
  constructor
  · intro hstat hdiff
    show (updatePreviewLoaded env m m.selected pc).1.viewport.yOffset = _
    unfold updatePreviewLoaded
    rw [if_neg (by simp)]
    dsimp only
    rw [if_pos ⟨hlt, hstat, hdiff⟩]
    rw [scrollToFirstDiff_yOffset]
    dsimp only [setPreviewContent]
    rw [renderPreview_wrap pc m.width hcache]
    rcases h : findDiffIdx
        (wrapAllLines pc.highlightedLines pc.rawLines pc.diffLines m.width) with _ | i
    · rfl
    · dsimp only
      simp only [max_def]
      split_ifs <;> omega
  · intro hdone
    show (updatePreviewLoaded env m m.selected pc).1.viewport.yOffset = 0
    unfold updatePreviewLoaded
    rw [if_neg (by simp)]
    dsimp only
    rw [if_neg ?hcond]
    case hcond =>
      rintro ⟨_, hu, hd⟩
      rcases hdone with hcom | hnil
      · rw [hcom] at hu
        exact absurd hu (by decide)
      · exact hd hnil
    rfl

/-- Concrete instance of claim C7: a ten-line uncommitted preview whose
first (and only) changed line is line 8 scrolls to wrapped index 7 minus
three lines of context, offset 4. -/
theorem previewLoaded_autoscroll_witness :
    (update envNil mScroll (.previewLoaded 0 pcDiffAt8)).1.viewport.yOffset = 4 := by
  have h := (previewLoaded_autoscroll envNil mScroll pcDiffAt8
      (by decide) (by decide)).1 (by decide) (by decide)
  rw [show (0 : Int) = mScroll.selected from rfl]
  rw [h]
  decide

/-- Counterexample to claim C5 as stated: three selection changes within
one debounce window (down, down, up — revisiting index 1) followed by
silence dispatch TWO preview loads, not exactly one: the first timer also
carries index 1, which still equals `previewPending` when it fires, because
dispatching a load does not clear `previewPending`. -/
theorem debounce_single_load_counterexample :
    loadCount (updates envNil mDebounce msgsDebounceRevisit).2 = 2 := by decide

/-- Claim C5 as amended: a firing `previewRequestMsg` is acted on only when
its carried index equals the current `previewPending`, so a superseded
timer firing carrying a different index is ignored and every dispatched
load is for the final selection; each selection change sets
`previewPending` to the new index and schedules the debounce timer; and
when the selection changes within the window all carry distinct indices,
exactly one load is dispatched, for the final selection. -/
theorem debounce_superseded_ignored :
    (∀ (env : Env) (m : Model) (idx : Int), idx ≠ m.previewPending →
      update env m (.previewRequest idx) = (m, [])) ∧
    (∀ (env : Env) (m : Model) (idx : Int) (c : CmdE),
      c ∈ (update env m (.previewRequest idx)).2 →
      ∃ f d g, c = CmdE.loadPreview m.previewPending f d g) ∧
    (∀ (env : Env) (m : Model), m.selected < (m.files.length : Int) - 1 →
      (update env m (.key "down")).1.previewPending = m.selected + 1 ∧
      (update env m (.key "down")).2 = [CmdE.debouncePreview (m.selected + 1)]) ∧
    (loadCount (updates envNil mDebounce msgsDebounceMono).2 = 1 ∧
     loadCountFor 3 (updates envNil mDebounce msgsDebounceMono).2 = 1) := by
  refine ⟨?_, ?_, ?_, by decide, by decide⟩
  · intro env m idx h
    show updatePreviewRequest env m idx = (m, [])
    unfold updatePreviewRequest
    rw [if_pos h]
  · intro env m idx c hc
    have hc' : c ∈ (updatePreviewRequest env m idx).2 := hc
    revert hc'
    unfold updatePreviewRequest
    split
    · intro hc'; simp at hc'
    case isFalse h1 =>
      have hidx : idx = m.previewPending := not_ne_iff.mp h1
      split
      · intro hc'; simp at hc'
      · dsimp only
        split
        · split
          · intro hc'; simp at hc'
          · intro hc'
            simp only [List.mem_singleton] at hc'
            subst hc'
            exact ⟨_, _, _, by subst hidx; rfl⟩
        · intro hc'
          simp only [List.mem_singleton] at hc'
          subst hc'
          exact ⟨_, _, _, by subst hidx; rfl⟩
  · intro env m hg
    have h1 : ¬("down" = "q" ∨ "down" = "ctrl+c") := by decide
    have h2 : ¬("down" = "up") := by decide
    constructor
    · show (updateKey env m "down").1.previewPending = m.selected + 1
      unfold updateKey
      rw [if_neg h1, if_neg h2, if_pos rfl, if_pos hg]
    · show (updateKey env m "down").2 = [CmdE.debouncePreview (m.selected + 1)]
      unfold updateKey
      rw [if_neg h1, if_neg h2, if_pos rfl, if_pos hg]

/-- Concrete instance of the amended claim C5: a timer firing with index 2
while `previewPending` is -1 changes nothing and dispatches nothing. -/
theorem debounce_superseded_ignored_witness :
    update envNil mDebounce (.previewRequest 2) = (mDebounce, []) :=
  debounce_superseded_ignored.1 envNil mDebounce 2 (by decide)

/-- Claim C6: a matching debounce firing for a non-committed file always
dispatches a load (the cache is never consulted for it); a loaded preview
is stored into the cache only for committed files; two consecutive
selections of the same committed file trigger exactly one content load
(the second is served from the cache); selecting an uncommitted file twice
always reloads. -/
theorem preview_cache_committed_only (env : Env) (m : Model) (idx : Int)
    (pc : PreviewContent) :
    (idx = m.previewPending → 0 ≤ idx → idx < (m.files.length : Int) →
      (m.files.getD idx.toNat {}).status ≠ "committed" →
      update env m (.previewRequest idx) =
        (m, [dispatchLoad m idx (m.files.getD idx.toNat {})])) ∧
    ((m.files.getD idx.toNat {}).status ≠ "committed" →
      (update env m (.previewLoaded idx pc)).1.previewCache = m.previewCache) ∧
    (idx < (m.files.length : Int) →
      (m.files.getD idx.toNat {}).status = "committed" → idx = m.selected →
      (update env m (.previewLoaded idx pc)).1.previewCache
        = amInsert m.previewCache (m.files.getD idx.toNat {}).path pc) ∧
    (loadCount (updates envNil mCommitted msgsCommittedTwice).2 = 1 ∧
     (updates envNil mCommitted msgsCommittedTwice).1.preview = pcMsgB) ∧
    loadCountFor 1 (updates envNil mUncommitted msgsUncommittedTwice).2 = 2 := by
  refine ⟨?_, ?_, ?_, by decide, by decide⟩
  · intro hp h0 hl hstat
    show updatePreviewRequest env m idx = _
    unfold updatePreviewRequest
    rw [if_neg (by simp [hp]), if_neg (by omega)]
    dsimp only
    split
    · rw [if_neg hstat]
    · rfl
  · intro hstat
    show (updatePreviewLoaded env m idx pc).1.previewCache = m.previewCache
    unfold updatePreviewLoaded
    split
    · rfl
    · dsimp only
      have hccond : ¬(idx < (m.files.length : Int) ∧
          (m.files.getD idx.toNat {}).status = "committed") := by
        rintro ⟨_, hcom⟩
        exact hstat hcom
      rw [if_neg hccond]
      split <;> simp
  · intro hl hstat hsel
    show (updatePreviewLoaded env m idx pc).1.previewCache = _
    unfold updatePreviewLoaded
    rw [if_neg (by simp [hsel])]
    dsimp only
    have hccond : idx < (m.files.length : Int) ∧
        (m.files.getD idx.toNat {}).status = "committed" := ⟨hl, hstat⟩
    rw [if_pos hccond]
    split <;> simp

/-- Concrete instance of claim C6: a matching debounce firing for the
selected uncommitted file dispatches its load and touches nothing else. -/
theorem preview_cache_committed_only_witness :
    update envNil mReq (.previewRequest 1)
      = (mReq, [dispatchLoad mReq 1 (mReq.files.getD (1 : Int).toNat {})]) :=
  (preview_cache_committed_only envNil mReq 1 {}).1 (by decide) (by decide)
    (by decide) (by decide)

end Perch
